import Mathlib

/-!
Shallow embedding of `src/data_aggregator.py` (class `TimeSeriesAggregator`).

Modelling conventions:
- A pandas cell value is `Val` (a number or a text); a missing cell (NaN) is
  represented by absence from the association list of the row, so a lookup that
  returns `none` is a null cell.
- Timestamps (`Date Time` after `pd.to_datetime(..., errors="coerce")`) are
  `Option Int` in epoch milliseconds; `none` is `NaT`.  The parser itself
  (`pd.to_datetime` on a raw cell) is an external-library function and is
  taken as a parameter `parse : Val → Option Int`; `errors="coerce"` means a
  parse failure yields `none`.
- `pd.merge(..., on="Date Time", how="outer")` is modelled by `merge_outer`:
  every left row is paired with every matching right row (left row kept alone
  when nothing matches), followed by the unmatched right rows.  pandas matches
  `NaT` keys with `NaT` keys, hence plain `BEq` on `Option Int`.  Row order of
  the pandas result and the `_x`/`_y` suffixing of duplicated non-key column
  names are not modelled; the theorems that rely on the merge assume disjoint
  column sets, under which no suffixing occurs.
- A Python `None` dataframe is `none` of `Option Table`; operating on it raises
  `TypeError`, modelled as `Except.error`.
- `scipy.stats.mode` computes `np.unique` (ascending, deduplicated) of the
  input and takes the value at the first index of maximal count; this is
  embedded as `sp_stats_mode` on `List ℚ`.
- pandas names an aggregation column after the aggregating callable; the
  `__name__` of a Python lambda is `"<lambda>"` (some pandas versions suffix
  an index when mangling lists of lambdas), so the column part for the `mode`
  lambda is `"<lambda>"`, never `"mode"`.
-/

/-- A spreadsheet cell value: a number or a text.  A missing value (NaN) is
represented by absence, not by a constructor. -/
inductive Val where
  | num (q : ℚ)
  | str (s : String)
deriving DecidableEq, Repr

/-- One row of a merged dataframe: the parsed `Date Time` key (`none` = NaT)
and the remaining cells keyed by (prefixed) column name; a column absent from
the list is a null cell. -/
structure Row where
  ts : Option Int
  cells : List (String × Val)
deriving DecidableEq, Repr

/-- A dataframe with `Date Time` as first column. -/
abbrev Table := List Row

/-- The `self.col_map` dict: insertion-ordered association list from
normalized name to prefixed column name. -/
abbrev ColMap := List (String × String)

/-- Embeds `normalize_col_name` (lines 25-29): lowercase, then delete every
character that is not a basic lowercase letter (`re.sub(r"[^a-z]+", "", col)`). -/
def normalize_col_name (col : String) : String :=
  String.mk ((col.data.map Char.toLower).filter (fun c => 'a' ≤ c && c ≤ 'z'))

/-- Does `hay` start with `needle`?  Helper for the Python `in` test on strings. -/
def startsWithList : List Char → List Char → Bool
  | [], _ => true
  | _ :: _, [] => false
  | a :: as, b :: bs => a == b && startsWithList as bs

/-- The Python substring test `needle in hay` on character lists. -/
def containsSubList : List Char → List Char → Bool
  | needle, [] => needle.isEmpty
  | needle, c :: rest => startsWithList needle (c :: rest) || containsSubList needle rest

/-- The Python substring test `needle in hay` on strings. -/
def containsSubstr (needle hay : String) : Bool :=
  containsSubList needle.data hay.data

/-- Embeds the resolution expression of `map_columns` (line 36):
`next((v for k, v in self.col_map.items() if norm_req in k), None)` —
the first entry, in insertion order, whose key contains the normalized
request as a substring. -/
def map_columns_resolve (col_map : ColMap) (req : String) : Option String :=
  (col_map.find? (fun kv => containsSubstr (normalize_col_name req) kv.1)).map Prod.snd

/-- Embeds `map_columns` (lines 31-41).  Returns the mapped column names and
the warning lines printed for the requested names that did not resolve. -/
def map_columns (col_map : ColMap) : List String → List String × List String
  | [] => ([], [])
  | req :: rest =>
    let res := map_columns col_map rest
    match map_columns_resolve col_map req with
    | some v => (v :: res.1, res.2)
    | none => (res.1, ("⚠ Column not found in Excel: " ++ req) :: res.2)

/-- The Python `str.replace(old, new)` method: replace every non-overlapping occurrence
of `pat`, scanning left to right.  The fuel argument (instantiated with the
length of the scanned list) only makes the recursion structural; an empty
pattern never occurs in the program (the pattern is the literal `"Input "`)
and is left unreplaced. -/
def replaceFuel (pat rep : List Char) : Nat → List Char → List Char
  | _, [] => []
  | 0, s => s
  | fuel + 1, c :: rest =>
    if startsWithList pat (c :: rest) && !pat.isEmpty then
      rep ++ replaceFuel pat rep fuel (List.drop (pat.length - 1) rest)
    else
      c :: replaceFuel pat rep fuel rest

/-- Embeds the device-name derivation (line 53):
`sheet.replace("Input ", "").rsplit("_", 1)[0].strip()` — delete every
occurrence of `"Input "`, keep everything before the last underscore (the
whole string when there is none), and strip surrounding whitespace. -/
def device_name (sheet : String) : String :=
  let s := replaceFuel "Input ".data "".data sheet.data.length sheet.data
  let fromLastUnderscore := s.reverse.dropWhile (fun c => !(c == '_'))
  let stem := if fromLastUnderscore.isEmpty then s else (fromLastUnderscore.drop 1).reverse
  String.mk (((stem.dropWhile Char.isWhitespace).reverse.dropWhile Char.isWhitespace).reverse)

/-- One sheet of the workbook: its label, its non-`Date Time` column names in
order, and its rows (raw `Date Time` cell, then the other cells keyed by the
original column name; a missing cell is absent from the list). -/
structure Sheet where
  name : String
  cols : List String
  rows : List (Val × List (String × Val))
deriving Repr

/-- Embeds the per-sheet processing of `load_and_merge_excel` (lines 54-61):
parse the `Date Time` column with coercion and rename every other column to
`<device>_<original>`. -/
def transform_sheet (parse : Val → Option Int) (sh : Sheet) : Table :=
  sh.rows.map (fun rc =>
    ⟨parse rc.1, rc.2.map (fun cv => (device_name sh.name ++ "_" ++ cv.1, cv.2))⟩)

/-- Python dict assignment `d[k] = v`: overwrite in place if the key exists,
else append. -/
def colMapInsert (cm : ColMap) (k v : String) : ColMap :=
  if cm.any (fun kv => kv.1 == k) then
    cm.map (fun kv => if kv.1 == k then (k, v) else kv)
  else cm ++ [(k, v)]

/-- Embeds the `col_map` registration loop (lines 58-65): for every
non-`Date Time` column, store normalized prefixed name → prefixed name. -/
def register_columns (cm : ColMap) (dev : String) (cols : List String) : ColMap :=
  cols.foldl
    (fun acc c => colMapInsert acc (normalize_col_name (dev ++ "_" ++ c)) (dev ++ "_" ++ c))
    cm

/-- Embeds `pd.merge(merged_df, df, on="Date Time", how="outer")` (line 70):
each left row is paired with every right row having an equal key (kept alone
when none matches), then the unmatched right rows follow.  `NaT` matches
`NaT`, as in pandas.  `merge_join_row` is the contribution of one left row:
itself when no right key matches, otherwise one combined row per matching
right row. -/
def merge_join_row (right : Table) (r : Row) : List Row :=
  let ms := right.filter (fun r2 => r2.ts == r.ts)
  if ms.isEmpty then [r]
  else ms.map (fun r2 => ⟨r.ts, r.cells ++ r2.cells⟩)

/-- The full outer merge of line 70: the contributions of the left rows followed by
the unmatched right rows. -/
def merge_outer (left right : Table) : Table :=
  left.flatMap (merge_join_row right)
  ++ right.filter (fun r2 => left.all (fun r => !(r.ts == r2.ts)))

/-- The observable outcome of `load_and_merge_excel`: the merged dataframe
(`none` when no sheet was processed, i.e. Python `None`), the populated
`col_map`, and the labels of the sheets reported by `Skipping sheet: ...`. -/
structure LoadResult where
  merged : Option Table
  col_map : ColMap
  skipped : List String
deriving Repr

/-- The sheet loop of `load_and_merge_excel` (lines 46-71), with its `count`
and accumulated state.  `if count == 2: print(...); continue` skips the sheet
without incrementing `count`. -/
def load_loop (parse : Val → Option Int) :
    List Sheet → Option Table → Nat → ColMap → LoadResult
  | [], merged, _, cm => ⟨merged, cm, []⟩
  | sheet :: rest, merged, count, cm =>
    if count == 2 then
      let r := load_loop parse rest merged count cm
      ⟨r.merged, r.col_map, sheet.name :: r.skipped⟩
    else
      let df := transform_sheet parse sheet
      let cm2 := register_columns cm (device_name sheet.name) sheet.cols
      let merged2 := match merged with
        | none => some df
        | some m => some (merge_outer m df)
      load_loop parse rest merged2 (count + 1) cm2

/-- Embeds `load_and_merge_excel` (lines 43-74). -/
def load_and_merge_excel (parse : Val → Option Int) (sheets : List Sheet) : LoadResult :=
  load_loop parse sheets none 0 []

/-- Python truthiness of an optional integer (`if self.timefrom:`):
false for `None` and for `0`. -/
def truthy (o : Option Int) : Bool :=
  match o with
  | none => false
  | some v => v != 0

/-- The comparison `row["Date Time"] >= bound`; `NaT` compares false. -/
def ts_ge (ts : Option Int) (bound : Int) : Bool :=
  match ts with
  | none => false
  | some t => bound ≤ t

/-- The comparison `row["Date Time"] <= bound`; `NaT` compares false. -/
def ts_le (ts : Option Int) (bound : Int) : Bool :=
  match ts with
  | none => false
  | some t => t ≤ bound

/-- Embeds `apply_time_filters` (lines 76-83) applied to `self.df`.  When the
dataframe is Python `None` (no sheet was processed) the body raises
`TypeError`; otherwise each bound filters only when truthy (so a bound of `0`
does not filter), inclusively. -/
def apply_time_filters (timefrom timeto : Option Int) (df : Option Table) :
    Except String Table :=
  match df with
  | none => Except.error "TypeError: NoneType"
  | some t =>
    let t1 := if truthy timefrom then t.filter (fun r => ts_ge r.ts (timefrom.getD 0)) else t
    let t2 := if truthy timeto then t1.filter (fun r => ts_le r.ts (timeto.getD 0)) else t1
    Except.ok t2

/-- Embeds the column-selection step of `aggregate_data` (lines 90-94):
`columns = None`, or an empty list (falsy in Python), selects every column;
otherwise the requested names are resolved by `map_columns` and an empty
resolved set raises `ValueError`. -/
def select_columns (columns : Option (List String)) (col_map : ColMap)
    (all_cols : List String) : Except String (List String) :=
  match columns with
  | none => Except.ok all_cols
  | some cs =>
    if cs.isEmpty then Except.ok all_cols
    else
      let available := (map_columns col_map cs).1
      if available.isEmpty then Except.error "No requested columns matched"
      else Except.ok available

/-- Is this `Except` an error (a raised exception)? -/
def exceptIsError {α : Type} (e : Except String α) : Bool :=
  match e with
  | Except.error _ => true
  | Except.ok _ => false

/-- The name pandas gives the aggregation of one supported statistic token
(lines 100-113): the string itself for `"min"/"max"/"mean"/"median"`; for
`"mode"` the aggregator is an anonymous function, whose `__name__` is
`"<lambda>"`; an unsupported token adds no function. -/
def statFuncName : String → Option String
  | "min" => some "min"
  | "max" => some "max"
  | "mean" => some "mean"
  | "median" => some "median"
  | "mode" => some "<lambda>"
  | _ => none

/-- The per-column list of aggregation-function names derived from
`self.stats` (lines 100-113). -/
def agg_func_names (stats : List String) : List String :=
  stats.filterMap statFuncName

/-- The columns of `grouped` before flattening (line 118): when at least one
numeric column exists the aggregation dict contains a list value, so pandas
produces tuple columns `(column, function-name)` — the numeric columns first,
each with every derived function name, then the non-numeric columns with
`"last"`; with no numeric column all dict values are the scalar `"last"` and
the columns stay plain names. -/
def grouped_columns (stats numeric_cols nonnum_cols : List String) :
    List (String ⊕ String × String) :=
  if numeric_cols.isEmpty then nonnum_cols.map Sum.inl
  else
    (numeric_cols.flatMap (fun c => (agg_func_names stats).map (fun s => Sum.inr (c, s))))
      ++ nonnum_cols.map (fun c => Sum.inr (c, "last"))

/-- Embeds the flattening loop (lines 120-128): a tuple column becomes
`<column>_<stat>` when more than one statistic was requested and keeps the
plain column name otherwise; a non-tuple column is kept as is. -/
def flatten_columns (stats : List String) (cols : List (String ⊕ String × String)) :
    List String :=
  cols.map (fun col =>
    match col with
    | Sum.inl c => c
    | Sum.inr (c, s) => if stats.length > 1 then c ++ "_" ++ s else c)

/-- The output column names of `aggregate_data` (lines 96-128) as a function
of the requested statistics and the numeric / non-numeric selected columns. -/
def aggregate_output_columns (stats numeric_cols nonnum_cols : List String) :
    List String :=
  flatten_columns stats (grouped_columns stats numeric_cols nonnum_cols)

/-- The sorted deduplicated values `np.unique` computes inside
`scipy.stats.mode`. -/
def unique_sorted (l : List ℚ) : List ℚ :=
  (l.insertionSort (· ≤ ·)).dedup

/-- The `np.argmax`-style scan over candidate values: the first value (in
list order) whose count is maximal — a later candidate replaces the current
best only when its count is strictly larger. -/
def pick_mode (cnt : ℚ → Nat) (v : ℚ) : List ℚ → ℚ
  | [] => v
  | x :: vs => pick_mode cnt (if cnt v < cnt x then x else v) vs

/-- Embeds `sp_stats.mode(x, keepdims=True).mode[0]`: the value of minimal
index in `np.unique(x)` (ascending) with maximal count. -/
def sp_stats_mode (x : List ℚ) : Option ℚ :=
  match unique_sorted x with
  | [] => none
  | v :: vs => some (pick_mode (fun q => x.count q) v vs)

/-- Embeds the mode aggregator of line 112:
`lambda x: sp_stats.mode(x, keepdims=True).mode[0] if len(x) > 0 else np.nan`
(`np.nan` as the null result). -/
def mode_stat (x : List ℚ) : Option ℚ :=
  if x.length > 0 then sp_stats_mode x else none

/-- All cell column names occurring in a table. -/
def table_columns (t : Table) : List String :=
  t.flatMap (fun r => r.cells.map Prod.fst)

/-- A concrete timestamp parser for witnesses: an integral numeric cell is an
epoch-millisecond timestamp, anything else fails to parse. -/
def parse_num : Val → Option Int
  | Val.num q => if q.den == 1 then some q.num else none
  | Val.str _ => none

/-- A filtered-in character is a basic lowercase letter, fixed by `toLower`. -/
lemma char_toLower_fix {c : Char} (h : ('a' ≤ c && c ≤ 'z') = true) : c.toLower = c := by
  simp only [Bool.and_eq_true, decide_eq_true_eq] at h
  have h1 : 97 ≤ c.toNat := by
    have := h.1
    simp [Char.le_def] at this
    exact this
  unfold Char.toLower
  rw [if_neg]
  omega

/-- C9 (confirmed): `normalize_col_name` is idempotent, depends only on the
lowercased characters (case-insensitive), and maps `"Temp-1"` and `"TEMP1"`
to the same key `"temp"` (punctuation-insensitive). -/
theorem normalize_idempotent_case_insensitive :
    (∀ s : String, normalize_col_name (normalize_col_name s) = normalize_col_name s) ∧
    (∀ s t : String, s.data.map Char.toLower = t.data.map Char.toLower →
      normalize_col_name s = normalize_col_name t) ∧
    normalize_col_name "Temp-1" = normalize_col_name "TEMP1" ∧
    normalize_col_name "Temp-1" = "temp" := by
  have hdata : ∀ s : String, (normalize_col_name s).data
      = (s.data.map Char.toLower).filter (fun c => 'a' ≤ c && c ≤ 'z') :=
    fun _ => rfl
  have hmap : ∀ l : List Char,
      (l.filter (fun c => 'a' ≤ c && c ≤ 'z')).map Char.toLower
        = l.filter (fun c => 'a' ≤ c && c ≤ 'z') := by
    intro l
    have h1 : (l.filter (fun c => 'a' ≤ c && c ≤ 'z')).map Char.toLower
        = (l.filter (fun c => 'a' ≤ c && c ≤ 'z')).map id :=
      List.map_congr_left (fun c hc => char_toLower_fix (List.mem_filter.mp hc).2)
    rw [h1, List.map_id]
  have hext : ∀ s t : String, s.data = t.data → s = t := by
    intro s t h
    cases s
    cases t
    exact congrArg String.mk h
  refine ⟨fun s => ?_, fun s t h => ?_, by decide, by decide⟩
  · refine hext _ _ ?_
    rw [hdata, hdata, hmap,
      List.filter_eq_self.mpr (fun c hc => (List.mem_filter.mp hc).2)]
  · refine hext _ _ ?_
    rw [hdata, hdata, h]

/-- C10 (confirmed): a supplied bound equal to `0` is falsy in Python, so
`apply_time_filters` performs no filtering on that side — it behaves exactly
as if the bound were absent, and with both bounds `0` every row is retained,
including rows with negative (pre-1970) timestamps. -/
theorem zero_bound_no_filtering (t : Table) (timefrom timeto : Option Int) :
    apply_time_filters (some 0) timeto (some t) = apply_time_filters none timeto (some t) ∧
    apply_time_filters timefrom (some 0) (some t) = apply_time_filters timefrom none (some t) ∧
    apply_time_filters (some 0) (some 0) (some t) = Except.ok t := by
  refine ⟨?_, ?_, ?_⟩ <;> simp [apply_time_filters, truthy]

/-- C6 (counterexample): with the supplied lower bound `0` and a row whose
timestamp is `-1`, the row fails `timestamp >= bound` yet is retained, so the
claimed behaviour for "any supplied bound" is false at bound `0`. -/
theorem time_filter_zero_bound_counterexample :
    apply_time_filters (some 0) none (some [⟨some (-1), []⟩]) =
      Except.ok [⟨some (-1), []⟩] ∧
    ts_ge (some (-1)) 0 = false := by
  exact ⟨rfl, by decide⟩

/-- C6 (amended): for any supplied nonzero lower/upper bound,
`apply_time_filters` retains exactly the rows whose timestamp satisfies
`>= lower` (if given) and `<= upper` (if given), inclusively; an absent bound
does not filter on that side.  (A supplied bound of `0` is treated as absent,
see the C10 theorem.) -/
theorem time_filter_inclusive_nonzero (timefrom timeto : Option Int) (t : Table)
    (h1 : timefrom ≠ some 0) (h2 : timeto ≠ some 0) :
    apply_time_filters timefrom timeto (some t) =
      Except.ok (t.filter (fun r =>
        (match timefrom with
         | none => true
         | some lo => ts_ge r.ts lo) &&
        (match timeto with
         | none => true
         | some hi => ts_le r.ts hi))) := by
  cases timefrom with
  | none =>
    cases timeto with
    | none => simp [apply_time_filters, truthy]
    | some hi =>
      have hh : hi ≠ 0 := fun h => h2 (by rw [h])
      simp [apply_time_filters, truthy, hh]
  | some lo =>
    have hl : lo ≠ 0 := fun h => h1 (by rw [h])
    cases timeto with
    | none => simp [apply_time_filters, truthy, hl]
    | some hi =>
      have hh : hi ≠ 0 := fun h => h2 (by rw [h])
      simp only [apply_time_filters, truthy, hl, hh, bne_iff_ne, ne_eq,
        not_false_eq_true, if_true, Option.getD_some, List.filter_filter]
      congr 1
      exact List.filter_congr (fun r _ => Bool.and_comm _ _)

/-- C6 (witness): with bounds 5 and 10, the row at exactly 5 is retained
(inclusive), the row at 11 and the NaT row are dropped. -/
theorem time_filter_inclusive_nonzero_witness :
    apply_time_filters (some 5) (some 10) (some [⟨some 5, []⟩, ⟨some 11, []⟩, ⟨none, []⟩]) =
      Except.ok [⟨some 5, []⟩] := by
  rw [time_filter_inclusive_nonzero (some 5) (some 10) _ (by decide) (by decide)]
  rfl

/-- C2 (counterexample): a workbook with zero sheets leaves `merged_df` as
Python `None`, which is not an empty table, and the pipeline then raises
`TypeError` inside `apply_time_filters`. -/
theorem empty_workbook_counterexample :
    (load_and_merge_excel parse_num []).merged = none ∧
    (load_and_merge_excel parse_num []).merged ≠ some ([] : Table) ∧
    apply_time_filters none none (load_and_merge_excel parse_num []).merged =
      Except.error "TypeError: NoneType" := by
  exact ⟨rfl, by decide, rfl⟩

/-- C2 (amended): a workbook with zero readable sheets yields no table at all
(Python `None`, not an empty `MergedTable`) and the pipeline then fails when
`apply_time_filters` operates on it; every timestamp cell is parsed with
coercion — a cell that fails to parse becomes null while its row is retained
(row count and row positions are preserved), never raising an error. -/
theorem empty_workbook_and_timestamp_coercion (parse : Val → Option Int) (sh : Sheet) :
    (load_and_merge_excel parse []).merged = none ∧
    (∀ timefrom timeto,
      apply_time_filters timefrom timeto ((load_and_merge_excel parse []).merged) =
        Except.error "TypeError: NoneType") ∧
    (transform_sheet parse sh).length = sh.rows.length ∧
    (∀ i : Nat, ((transform_sheet parse sh)[i]?).map Row.ts =
      (sh.rows[i]?).map (fun rc => parse rc.1)) := by
  refine ⟨rfl, fun _ _ => rfl, by simp [transform_sheet], fun i => ?_⟩
  simp only [transform_sheet, List.getElem?_map, Option.map_map]
  cases sh.rows[i]? <;> rfl

/-- Once `count` has reached 2, every remaining sheet is skipped and the
accumulated state no longer changes. -/
lemma load_loop_count_two (parse : Val → Option Int) (rest : List Sheet)
    (m : Option Table) (cm : ColMap) :
    load_loop parse rest m 2 cm = ⟨m, cm, rest.map Sheet.name⟩ := by
  induction rest with
  | nil => rfl
  | cons sh rest ih => simp [load_loop, ih]

/-- C1 (amended): for every workbook, `load_and_merge_excel` processes and
merges exactly the first two sheets; the sheet at index 2 and every sheet
after it are all skipped (the counter stays at 2 because skipped sheets do
not increment it), so with three or more sheets the excluded set is the whole
tail from index 2, not a single sheet. -/
theorem load_and_merge_processes_only_first_two (parse : Val → Option Int)
    (s0 s1 : Sheet) (rest : List Sheet) :
    (load_and_merge_excel parse (s0 :: s1 :: rest)).skipped = rest.map Sheet.name ∧
    (load_and_merge_excel parse (s0 :: s1 :: rest)).merged =
      some (merge_outer (transform_sheet parse s0) (transform_sheet parse s1)) := by
  simp [load_and_merge_excel, load_loop, load_loop_count_two]

/-- A concrete four-sheet workbook, each sheet carrying one column. -/
def four_sheets : List Sheet :=
  [⟨"Input A_1", ["t"], [(Val.num 1, [("t", Val.num 5)])]⟩,
   ⟨"Input B_1", ["u"], [(Val.num 1, [("u", Val.num 6)])]⟩,
   ⟨"Input C_1", ["w"], [(Val.num 1, [("w", Val.num 7)])]⟩,
   ⟨"Input D_1", ["x"], [(Val.num 2, [("x", Val.num 8)])]⟩]

/-- C1 (counterexample): on a four-sheet workbook the code skips two sheets,
not exactly one — and the fourth sheet is not "processed and merged
normally": its only row (timestamp 2) is absent from the merged table, whose
timestamps come from the first two sheets alone. -/
theorem third_sheet_skip_counterexample :
    (load_and_merge_excel parse_num four_sheets).skipped = ["Input C_1", "Input D_1"] ∧
    (load_and_merge_excel parse_num four_sheets).skipped.length ≠ 1 ∧
    ((load_and_merge_excel parse_num four_sheets).merged.getD []).map Row.ts = [some 1] ∧
    some 2 ∉ ((load_and_merge_excel parse_num four_sheets).merged.getD []).map Row.ts := by
  decide

/-- Python truthiness of the `self.columns` parameter: `None` and the empty
list are falsy, so only a nonempty list counts as explicitly requested. -/
def columns_requested (o : Option (List String)) : Bool :=
  match o with
  | none => false
  | some l => !l.isEmpty

/-- C7 (confirmed): the column-selection step of `aggregate_data` raises
exactly when a nonempty list of short names was requested and the full
resolved set is empty; whenever at least one name resolves the step succeeds
with the resolved list (individually unresolved names only produce warnings
inside `map_columns`). -/
theorem select_columns_fatal_iff (columns : Option (List String)) (col_map : ColMap)
    (all_cols : List String) :
    (exceptIsError (select_columns columns col_map all_cols)
      = (columns_requested columns && ((map_columns col_map (columns.getD [])).1).isEmpty)) ∧
    (∀ cs v rest, columns = some cs → (map_columns col_map cs).1 = v :: rest →
      select_columns columns col_map all_cols = Except.ok (v :: rest)) := by
  constructor
  · cases columns with
    | none => rfl
    | some cs =>
      by_cases hcs : cs.isEmpty
      · simp [select_columns, exceptIsError, columns_requested, hcs]
      · by_cases hav : ((map_columns col_map cs).1).isEmpty
        · simp [select_columns, exceptIsError, columns_requested, hcs, hav]
        · simp [select_columns, exceptIsError, columns_requested, hcs, hav]
  · rintro cs v rest rfl hmap
    cases cs with
    | nil => simp [map_columns] at hmap
    | cons c cs' =>
      simp [select_columns, hmap]

/-- C7 (witness): requesting `["zzz", "temp"]` where only `"temp"` resolves
does not raise — the unresolved name is merely dropped. -/
theorem select_columns_fatal_iff_witness :
    select_columns (some ["zzz", "temp"]) [("atemp", "A_temp")] ["A_temp", "B"] =
      Except.ok ["A_temp"] :=
  (select_columns_fatal_iff (some ["zzz", "temp"]) [("atemp", "A_temp")] ["A_temp", "B"]).2
    ["zzz", "temp"] "A_temp" [] rfl (by decide)

/-- The first list element satisfying a predicate, when everything before it
fails the predicate, is what `find?` returns. -/
lemma find?_append_first {α : Type} (p : α → Bool) (pre post : List α) (x : α)
    (hpre : ∀ y ∈ pre, p y = false) (hx : p x = true) :
    (pre ++ x :: post).find? p = some x := by
  induction pre with
  | nil => simpa using List.find?_cons_of_pos _ hx
  | cons y pre ih =>
    rw [List.cons_append, List.find?_cons_of_neg]
    · exact ih (fun z hz => hpre z (by simp [hz]))
    · simp [hpre y (by simp)]

/-- C3 (confirmed): `map_columns` resolves each requested name independently:
the mapped list holds, in order, the successful resolutions of the requested names and
the warnings are exactly the unresolved names; a resolution returns the
canonical name of the first `col_map` entry, in insertion order, whose key
contains the normalized request as a substring, and returns nothing when no
key contains it. -/
theorem map_columns_first_match (col_map : ColMap) (reqs : List String) :
    ((map_columns col_map reqs).1 = reqs.filterMap (map_columns_resolve col_map)) ∧
    ((map_columns col_map reqs).2 =
      (reqs.filter (fun r => (map_columns_resolve col_map r).isNone)).map
        (fun r => "⚠ Column not found in Excel: " ++ r)) ∧
    (∀ req pre k v post,
      col_map = pre ++ (k, v) :: post →
      (∀ kv ∈ pre, containsSubstr (normalize_col_name req) kv.1 = false) →
      containsSubstr (normalize_col_name req) k = true →
      map_columns_resolve col_map req = some v) ∧
    (∀ req, (∀ kv ∈ col_map, containsSubstr (normalize_col_name req) kv.1 = false) →
      map_columns_resolve col_map req = none) := by
  refine ⟨?_, ?_, ?_, ?_⟩
  · induction reqs with
    | nil => rfl
    | cons r rs ih =>
      cases h : map_columns_resolve col_map r <;>
        simp [map_columns, h, ih, List.filterMap_cons]
  · induction reqs with
    | nil => rfl
    | cons r rs ih =>
      cases h : map_columns_resolve col_map r <;>
        simp [map_columns, h, ih]
  · intro req pre k v post hcm hpre hk
    subst hcm
    unfold map_columns_resolve
    rw [find?_append_first _ pre post (k, v) (fun kv hkv => hpre kv hkv) hk]
    rfl
  · intro req hall
    unfold map_columns_resolve
    rw [List.find?_eq_none.mpr (fun kv hkv => by simp [hall kv hkv])]
    rfl

/-- C3 (witness): with keys `"devatemp"` then `"temp"` in insertion order,
requesting `"temp"` resolves to the canonical name behind `"devatemp"` — the
first key containing the request — not the exactly-equal later key. -/
theorem map_columns_first_match_witness :
    map_columns_resolve [("devatemp", "devA_Temp"), ("temp", "B_temp")] "temp" =
      some "devA_Temp" :=
  (map_columns_first_match [("devatemp", "devA_Temp"), ("temp", "B_temp")] ["temp"]).2.2.1
    "temp" [] "devatemp" "devA_Temp" [("temp", "B_temp")] rfl (by simp) (by decide)

/-- C4 (counterexample): with statistics `["mean", "mode"]` requested, the
mode column of a numeric column `A_temp` is named `A_temp_<lambda>` — after
the anonymous aggregating function — and no `A_temp_mode` column exists. -/
theorem mode_column_name_counterexample :
    "A_temp_mode" ∉ aggregate_output_columns ["mean", "mode"] ["A_temp"] [] ∧
    aggregate_output_columns ["mean", "mode"] ["A_temp"] [] =
      ["A_temp_mean", "A_temp_<lambda>"] := by
  decide

/-- C4 (amended): with exactly one requested statistic every output column
keeps its original resolved name; with more than one, each numeric column
produces one column per supported statistic named `<column>_<name>` where the
name is the statistic token for `min`/`max`/`mean`/`median` but the anonymous
function name `<lambda>` for `mode` (never `mode`), non-numeric columns
become `<column>_last`, and with no numeric column at all the names stay
flat. -/
theorem aggregate_column_flattening (stats numeric_cols nonnum_cols : List String) :
    (stats.length = 1 →
      ∀ c ∈ aggregate_output_columns stats numeric_cols nonnum_cols,
        c ∈ numeric_cols ∨ c ∈ nonnum_cols) ∧
    (1 < stats.length →
      aggregate_output_columns stats numeric_cols nonnum_cols =
        if numeric_cols.isEmpty then nonnum_cols
        else numeric_cols.flatMap
              (fun c => (agg_func_names stats).map (fun s => c ++ "_" ++ s))
            ++ nonnum_cols.map (fun c => c ++ "_" ++ "last")) ∧
    statFuncName "mode" = some "<lambda>" ∧
    statFuncName "min" = some "min" ∧
    statFuncName "max" = some "max" ∧
    statFuncName "mean" = some "mean" ∧
    statFuncName "median" = some "median" := by
  refine ⟨?_, ?_, rfl, rfl, rfl, rfl, rfl⟩
  · intro h1 c hc
    have hlen : ¬ (stats.length > 1) := by omega
    unfold aggregate_output_columns grouped_columns flatten_columns at hc
    by_cases hnum : numeric_cols.isEmpty
    · rw [if_pos hnum] at hc
      rw [List.map_map] at hc
      right
      simpa using hc
    · rw [if_neg hnum] at hc
      rw [List.map_append, List.map_flatMap, List.map_map] at hc
      rcases List.mem_append.mp hc with h | h
      · left
        obtain ⟨a, ha, hmem⟩ := List.mem_flatMap.mp h
        rw [List.map_map] at hmem
        obtain ⟨s, _, rfl⟩ := List.mem_map.mp hmem
        simpa [hlen] using ha
      · right
        obtain ⟨a, ha, rfl⟩ := List.mem_map.mp h
        simpa [hlen] using ha
  · intro h2
    have hlen : stats.length > 1 := h2
    unfold aggregate_output_columns grouped_columns flatten_columns
    by_cases hnum : numeric_cols.isEmpty
    · rw [if_pos hnum, if_pos hnum, List.map_map]
      exact (List.map_congr_left fun a _ => rfl).trans (List.map_id _)
    · rw [if_neg hnum, if_neg hnum, List.map_append, List.map_flatMap]
      congr 1
      · have hfun : ∀ c : String,
            ((agg_func_names stats).map (fun s => Sum.inr (c, s) : String → _)).map
              (fun col => match col with
                | Sum.inl c => c
                | Sum.inr (c, s) => if stats.length > 1 then c ++ "_" ++ s else c)
            = (agg_func_names stats).map (fun s => c ++ "_" ++ s) := by
          intro c
          rw [List.map_map]
          exact List.map_congr_left (fun s _ => by simp [hlen])
        clear hnum
        induction numeric_cols with
        | nil => rfl
        | cons c cs ih =>
          rw [List.flatMap_cons, List.flatMap_cons, ih, hfun]
      · rw [List.map_map]
        exact List.map_congr_left (fun a _ => by simp [hlen])

/-- C4 (witness): requesting `["mean", "mode"]` on numeric column `A_temp`
and text column `B_note` produces `A_temp_mean`, `A_temp_<lambda>` and
`B_note_last`. -/
theorem aggregate_column_flattening_witness :
    (1 : Nat) < (["mean", "mode"] : List String).length ∧
    aggregate_output_columns ["mean", "mode"] ["A_temp"] ["B_note"] =
      ["A_temp_mean", "A_temp_<lambda>", "B_note_last"] :=
  ⟨by decide,
    ((aggregate_column_flattening ["mean", "mode"] ["A_temp"] ["B_note"]).2.1
      (by decide)).trans (by decide)⟩

/-- The argmax scan returns one of its candidates. -/
lemma pick_mode_mem (cnt : ℚ → Nat) (vs : List ℚ) : ∀ v, pick_mode cnt v vs ∈ v :: vs := by
  induction vs with
  | nil => intro v; simp [pick_mode]
  | cons x vs ih =>
    intro v
    rw [pick_mode]
    by_cases hc : cnt v < cnt x
    · rw [if_pos hc]
      rcases List.mem_cons.mp (ih x) with h | h
      · rw [h]
        simp
      · exact List.mem_cons_of_mem _ (List.mem_cons_of_mem _ h)
    · rw [if_neg hc]
      rcases List.mem_cons.mp (ih v) with h | h
      · rw [h]
        simp
      · exact List.mem_cons_of_mem _ (List.mem_cons_of_mem _ h)

/-- The result of the argmax scan has maximal count among the candidates. -/
lemma pick_mode_max (cnt : ℚ → Nat) (vs : List ℚ) :
    ∀ v, ∀ y ∈ v :: vs, cnt y ≤ cnt (pick_mode cnt v vs) := by
  induction vs with
  | nil =>
    intro v y hy
    simp only [List.mem_singleton] at hy
    subst hy
    simp [pick_mode]
  | cons x vs ih =>
    intro v y hy
    rw [pick_mode]
    have hvw : cnt v ≤ cnt (if cnt v < cnt x then x else v) := by
      by_cases hc : cnt v < cnt x
      · rw [if_pos hc]; omega
      · rw [if_neg hc]
    have hxw : cnt x ≤ cnt (if cnt v < cnt x then x else v) := by
      by_cases hc : cnt v < cnt x
      · rw [if_pos hc]
      · rw [if_neg hc]; omega
    have hw_le : cnt (if cnt v < cnt x then x else v)
        ≤ cnt (pick_mode cnt (if cnt v < cnt x then x else v) vs) :=
      ih _ _ (by simp)
    rcases List.mem_cons.mp hy with rfl | hy2
    · exact le_trans hvw hw_le
    rcases List.mem_cons.mp hy2 with rfl | hy3
    · exact le_trans hxw hw_le
    · exact ih _ _ (List.mem_cons_of_mem _ hy3)

/-- Among candidates sorted ascending, the result of the argmax scan is the
smallest candidate achieving the maximal count (a later tie never replaces
the current best). -/
lemma pick_mode_first (cnt : ℚ → Nat) (vs : List ℚ) :
    ∀ v, (v :: vs).Pairwise (· ≤ ·) →
      ∀ y ∈ v :: vs, cnt y = cnt (pick_mode cnt v vs) → pick_mode cnt v vs ≤ y := by
  induction vs with
  | nil =>
    intro v _ y hy _
    simp only [List.mem_singleton] at hy
    subst hy
    simp [pick_mode]
  | cons x vs ih =>
    intro v hsort y hy hcy
    rw [pick_mode] at hcy ⊢
    have hvx : v ≤ x := (List.pairwise_cons.mp hsort).1 x (by simp)
    have hsort' : ((if cnt v < cnt x then x else v) :: vs).Pairwise (· ≤ ·) := by
      rcases List.pairwise_cons.mp hsort with ⟨hv_all, hxvs⟩
      by_cases hc : cnt v < cnt x
      · rw [if_pos hc]
        exact hxvs
      · rw [if_neg hc]
        rcases List.pairwise_cons.mp hxvs with ⟨_, hvs⟩
        exact List.pairwise_cons.mpr
          ⟨fun z hz => hv_all z (List.mem_cons_of_mem _ hz), hvs⟩
    by_cases hc : cnt v < cnt x
    · rw [if_pos hc] at hcy hsort' ⊢
      rcases List.mem_cons.mp hy with hyv | hy2
      · exfalso
        rw [hyv] at hcy
        have h1 : cnt x ≤ cnt (pick_mode cnt x vs) :=
          pick_mode_max cnt vs x x (by simp)
        omega
      · exact ih x hsort' y hy2 hcy
    · rw [if_neg hc] at hcy hsort' ⊢
      rcases List.mem_cons.mp hy with hyv | hy2
      · rw [hyv] at hcy ⊢
        exact ih v hsort' v (by simp) hcy
      rcases List.mem_cons.mp hy2 with hyx | hy3
      · rw [hyx] at hcy ⊢
        have hxv : cnt x ≤ cnt v := Nat.le_of_not_lt hc
        have hvp : cnt v ≤ cnt (pick_mode cnt v vs) :=
          pick_mode_max cnt vs v v (by simp)
        have hveq : cnt v = cnt (pick_mode cnt v vs) := by omega
        have hle : pick_mode cnt v vs ≤ v := ih v hsort' v (by simp) hveq
        exact le_trans hle hvx
      · exact ih v hsort' y (List.mem_cons_of_mem _ hy3) hcy

/-- Membership in `np.unique` of a list is membership in the list. -/
lemma unique_sorted_mem (l : List ℚ) (q : ℚ) : q ∈ unique_sorted l ↔ q ∈ l := by
  unfold unique_sorted
  rw [List.mem_dedup]
  exact (List.perm_insertionSort _ l).mem_iff

/-- The values of `np.unique` are in ascending order. -/
lemma unique_sorted_pairwise (l : List ℚ) : (unique_sorted l).Pairwise (· ≤ ·) := by
  unfold unique_sorted
  exact List.Pairwise.sublist (List.dedup_sublist _) (List.sorted_insertionSort _ l)

/-- C5 (confirmed): the mode aggregator applied by `aggregate_data` to the
values of one bucket returns, for a nonempty bucket, a value of the bucket
with maximal multiplicity that is the smallest among the tied most-frequent
values, and returns null for an empty bucket. -/
theorem mode_stat_spec (x : List ℚ) :
    (x = [] → mode_stat x = none) ∧
    (x ≠ [] → ∃ m, mode_stat x = some m ∧ m ∈ x ∧
      (∀ y ∈ x, x.count y ≤ x.count m) ∧
      (∀ y ∈ x, x.count y = x.count m → m ≤ y)) := by
  constructor
  · rintro rfl
    rfl
  · intro hx
    have hus : unique_sorted x ≠ [] := by
      intro h0
      obtain ⟨e, he⟩ := List.exists_mem_of_ne_nil x hx
      have := (unique_sorted_mem x e).mpr he
      rw [h0] at this
      simp at this
    obtain ⟨v, vs, hvvs⟩ := List.exists_cons_of_ne_nil hus
    have hpw : (v :: vs).Pairwise (· ≤ ·) := by
      rw [← hvvs]
      exact unique_sorted_pairwise x
    refine ⟨pick_mode (fun q => x.count q) v vs, ?_, ?_, ?_, ?_⟩
    · unfold mode_stat sp_stats_mode
      rw [if_pos (by simpa using List.length_pos.mpr hx), hvvs]
    · exact (unique_sorted_mem x _).mp (by rw [hvvs]; exact pick_mode_mem _ vs v)
    · intro y hy
      exact pick_mode_max (fun q => x.count q) vs v y
        (by rw [← hvvs]; exact (unique_sorted_mem x y).mpr hy)
    · intro y hy hcy
      exact pick_mode_first (fun q => x.count q) vs v hpw y
        (by rw [← hvvs]; exact (unique_sorted_mem x y).mpr hy) hcy

/-- C5 (witness): on the bucket `[2, 1, 2, 1, 3]` the counts of 1 and 2 tie
at two, and the mode is the smaller value 1. -/
theorem mode_stat_spec_witness :
    ([2, 1, 2, 1, 3] : List ℚ) ≠ [] ∧
    ∃ m, mode_stat [2, 1, 2, 1, 3] = some m ∧ m ∈ ([2, 1, 2, 1, 3] : List ℚ) ∧
      (∀ y ∈ ([2, 1, 2, 1, 3] : List ℚ),
        List.count y [2, 1, 2, 1, 3] ≤ List.count m [2, 1, 2, 1, 3]) ∧
      (∀ y ∈ ([2, 1, 2, 1, 3] : List ℚ),
        List.count y [2, 1, 2, 1, 3] = List.count m [2, 1, 2, 1, 3] → m ≤ y) :=
  ⟨by decide, (mode_stat_spec [2, 1, 2, 1, 3]).2 (by decide)⟩

/-- Lookup in an appended association list prefers the left part. -/
lemma lookup_append_some {l1 l2 : List (String × Val)} {c : String} {v : Val}
    (h : l1.lookup c = some v) : (l1 ++ l2).lookup c = some v := by
  induction l1 with
  | nil => simp [List.lookup] at h
  | cons kv l1 ih =>
    obtain ⟨k, b⟩ := kv
    by_cases hk : (c == k) = true
    · simp only [List.lookup, hk] at h
      simp only [List.cons_append, List.lookup, hk]
      exact h
    · rw [Bool.not_eq_true] at hk
      simp only [List.lookup, hk] at h
      simp only [List.cons_append, List.lookup, hk]
      exact ih h

/-- Lookup in an appended association list falls through a left part that
lacks the key. -/
lemma lookup_append_none {l1 l2 : List (String × Val)} {c : String}
    (h : l1.lookup c = none) : (l1 ++ l2).lookup c = l2.lookup c := by
  induction l1 with
  | nil => rfl
  | cons kv l1 ih =>
    obtain ⟨k, b⟩ := kv
    by_cases hk : (c == k) = true
    · simp only [List.lookup, hk] at h
      exact Option.noConfusion h
    · rw [Bool.not_eq_true] at hk
      simp only [List.lookup, hk] at h
      simp only [List.cons_append, List.lookup, hk]
      exact ih h

/-- A successful lookup means the key occurs in the list. -/
lemma mem_keys_of_lookup_some {l : List (String × Val)} {c : String} {v : Val}
    (h : l.lookup c = some v) : c ∈ l.map Prod.fst := by
  induction l with
  | nil => simp [List.lookup] at h
  | cons kv l ih =>
    obtain ⟨k, b⟩ := kv
    by_cases hk : (c == k) = true
    · have : c = k := eq_of_beq hk
      simp [this]
    · rw [Bool.not_eq_true] at hk
      simp only [List.lookup, hk] at h
      exact List.mem_cons_of_mem _ (ih h)

/-- A key absent from the list looks up to nothing (a null cell). -/
lemma lookup_none_of_not_mem_keys {l : List (String × Val)} {c : String}
    (h : c ∉ l.map Prod.fst) : l.lookup c = none := by
  induction l with
  | nil => rfl
  | cons kv l ih =>
    obtain ⟨k, b⟩ := kv
    simp only [List.map_cons, List.mem_cons] at h
    push_neg at h
    have hk : (c == k) = false := by
      rw [beq_eq_false_iff_ne]
      exact h.1
    simp only [List.lookup, hk]
    exact ih h.2

/-- A cell key of a member row is a column of the table. -/
lemma mem_table_columns_of_key {t : Table} {r : Row} {c : String}
    (hr : r ∈ t) (hk : c ∈ r.cells.map Prod.fst) : c ∈ table_columns t := by
  unfold table_columns
  rw [List.mem_flatMap]
  exact ⟨r, hr, hk⟩

/-- When the keys of the right table are distinct, at most one right row matches a
given key. -/
lemma filter_key_len_le_one (ts0 : Option Int) :
    ∀ b : Table, (b.map Row.ts).Nodup →
      (b.filter (fun r2 => r2.ts == ts0)).length ≤ 1 := by
  intro b
  induction b with
  | nil => intro _; simp
  | cons rb b ih =>
    intro hb
    rw [List.map_cons, List.nodup_cons] at hb
    by_cases hk : (rb.ts == ts0) = true
    · have hstep : List.filter (fun r2 => r2.ts == ts0) (rb :: b)
          = rb :: List.filter (fun r2 => r2.ts == ts0) b := by
        simp [List.filter_cons, hk]
      rw [hstep]
      have hnil : b.filter (fun r2 => r2.ts == ts0) = [] := by
        rw [List.filter_eq_nil_iff]
        intro r2 hr2 hcon
        apply hb.1
        have h2 : r2.ts = ts0 := eq_of_beq hcon
        have h1 : rb.ts = ts0 := eq_of_beq hk
        rw [h1, ← h2]
        exact List.mem_map_of_mem Row.ts hr2
      rw [hnil]
      simp
    · have hstep : List.filter (fun r2 => r2.ts == ts0) (rb :: b)
          = List.filter (fun r2 => r2.ts == ts0) b := by
        simp [List.filter_cons, hk]
      rw [hstep]
      exact ih hb.2

/-- The contribution of one left row carries exactly the key of that row. -/
lemma merge_join_row_ts {b : Table} (hb : (b.map Row.ts).Nodup) (ra : Row) :
    (merge_join_row b ra).map Row.ts = [ra.ts] := by
  unfold merge_join_row
  by_cases hms : (b.filter (fun r2 => r2.ts == ra.ts)).isEmpty
  · rw [if_pos hms]
    rfl
  · rw [if_neg hms]
    have hlen := filter_key_len_le_one ra.ts b hb
    cases hfm : b.filter (fun r2 => r2.ts == ra.ts) with
    | nil =>
      rw [hfm] at hms
      simp at hms
    | cons rb tl =>
      rw [hfm] at hlen
      rw [List.length_cons] at hlen
      have htl : tl = [] := List.length_eq_zero.mp (by omega)
      rw [htl]
      rfl

/-- The left half of the outer merge has exactly the keys of the left table. -/
lemma merge_flatMap_keys (a b : Table) (hb : (b.map Row.ts).Nodup) :
    (a.flatMap (merge_join_row b)).map Row.ts = a.map Row.ts := by
  induction a with
  | nil => rfl
  | cons ra a ih =>
    rw [List.flatMap_cons, List.map_append, ih, merge_join_row_ts hb ra, List.map_cons]
    rfl

/-- Every merged row is either the contribution of a left row, or an
unmatched right row. -/
lemma merge_outer_row_cases {a b : Table} {rm : Row} (h : rm ∈ merge_outer a b) :
    (∃ ra ∈ a, rm ∈ merge_join_row b ra) ∨
    (rm ∈ b ∧ ∀ ra ∈ a, ¬ ra.ts = rm.ts) := by
  unfold merge_outer at h
  rcases List.mem_append.mp h with h | h
  · exact Or.inl (List.mem_flatMap.mp h)
  · right
    have hf := List.mem_filter.mp h
    refine ⟨hf.1, fun ra hra heq => ?_⟩
    have hall := List.all_eq_true.mp hf.2 ra hra
    simp [heq] at hall

/-- The contribution of a left row is itself (when no right key matches) or the
combination with the unique matching right row. -/
lemma merge_join_row_cases {b : Table} {ra rm : Row}
    (h : rm ∈ merge_join_row b ra) :
    ((∀ rb ∈ b, ¬ rb.ts = ra.ts) ∧ rm = ra) ∨
    (∃ rb ∈ b, rb.ts = ra.ts ∧ rm = ⟨ra.ts, ra.cells ++ rb.cells⟩) := by
  unfold merge_join_row at h
  by_cases hms : (b.filter (fun r2 => r2.ts == ra.ts)).isEmpty
  · rw [if_pos hms] at h
    left
    rw [List.isEmpty_iff] at hms
    constructor
    · intro rb hrb heq
      have hmem : rb ∈ b.filter (fun r2 => r2.ts == ra.ts) :=
        List.mem_filter.mpr ⟨hrb, by simp [heq]⟩
      rw [hms] at hmem
      simp at hmem
    · simpa using h
  · rw [if_neg hms] at h
    obtain ⟨rb, hrb, hrm⟩ := List.mem_map.mp h
    have hmem := List.mem_filter.mp hrb
    exact Or.inr ⟨rb, hmem.1, eq_of_beq hmem.2, hrm.symm⟩

/-- The key list of the outer merge splits into the left keys and the unmatched
right keys. -/
lemma merge_outer_keys (a b : Table) (hb : (b.map Row.ts).Nodup) :
    (merge_outer a b).map Row.ts
      = a.map Row.ts
        ++ (b.filter (fun r2 => a.all (fun r => !(r.ts == r2.ts)))).map Row.ts := by
  unfold merge_outer
  rw [List.map_append, merge_flatMap_keys a b hb]

/-- With distinct keys on both sides, the keys of the outer merge are distinct. -/
lemma merge_outer_keys_nodup {a b : Table}
    (ha : (a.map Row.ts).Nodup) (hb : (b.map Row.ts).Nodup) :
    ((merge_outer a b).map Row.ts).Nodup := by
  rw [merge_outer_keys a b hb]
  refine List.Nodup.append ha ?_ ?_
  · exact hb.sublist (List.Sublist.map Row.ts (List.filter_sublist b))
  · intro ts hts1 hts2
    obtain ⟨r2, hr2, hts⟩ := List.mem_map.mp hts2
    have hf := List.mem_filter.mp hr2
    obtain ⟨ra, hra, hra_ts⟩ := List.mem_map.mp hts1
    have hall := List.all_eq_true.mp hf.2 ra hra
    rw [← hts] at hra_ts
    simp [hra_ts] at hall

/-- The key set of the outer merge is the union of the two key sets. -/
lemma merge_outer_ts_mem (a b : Table) (hb : (b.map Row.ts).Nodup) (ts : Option Int) :
    ts ∈ (merge_outer a b).map Row.ts ↔ ts ∈ a.map Row.ts ∨ ts ∈ b.map Row.ts := by
  rw [merge_outer_keys a b hb, List.mem_append]
  constructor
  · rintro (h | h)
    · exact Or.inl h
    · obtain ⟨r2, hr2, hts⟩ := List.mem_map.mp h
      rw [← hts]
      exact Or.inr (List.mem_map_of_mem Row.ts (List.mem_filter.mp hr2).1)
  · rintro (h | h)
    · exact Or.inl h
    · obtain ⟨rb, hrb, hts⟩ := List.mem_map.mp h
      by_cases hmatch : ∃ ra ∈ a, ra.ts = rb.ts
      · obtain ⟨ra, hra, hra_ts⟩ := hmatch
        left
        rw [← hts, ← hra_ts]
        exact List.mem_map_of_mem Row.ts hra
      · right
        rw [← hts]
        refine List.mem_map_of_mem Row.ts (List.mem_filter.mpr ⟨hrb, ?_⟩)
        refine List.all_eq_true.mpr (fun r hr => ?_)
        push_neg at hmatch
        simp [hmatch r hr]

/-- C8 (confirmed): on a workbook whose two processed sheets have internally
distinct parsed timestamps and disjoint prefixed column sets, the merged
table of `load_and_merge_excel` is the full outer join of the two processed
(transformed) sheets: its timestamp set is the union of their timestamp sets,
each timestamp occurs in exactly one row (the key list is duplicate-free),
every cell of either processed sheet survives into the row carrying its
timestamp (no data loss), and in a row whose timestamp is absent from one
processed sheet every column of that sheet is null. -/
theorem merged_table_outer_join_invariant (parse : Val → Option Int)
    (s0 s1 : Sheet) (rest : List Sheet) (a b : Table)
    (hA : a = transform_sheet parse s0) (hB : b = transform_sheet parse s1)
    (ha : (a.map Row.ts).Nodup) (hb : (b.map Row.ts).Nodup)
    (hdisj : ∀ c ∈ table_columns a, c ∉ table_columns b) :
    (load_and_merge_excel parse (s0 :: s1 :: rest)).merged = some (merge_outer a b) ∧
    (∀ ts, ts ∈ (merge_outer a b).map Row.ts ↔
      (ts ∈ a.map Row.ts ∨ ts ∈ b.map Row.ts)) ∧
    ((merge_outer a b).map Row.ts).Nodup ∧
    (∀ rm ∈ merge_outer a b, ∀ ra ∈ a, rm.ts = ra.ts →
      ∀ c v, ra.cells.lookup c = some v → rm.cells.lookup c = some v) ∧
    (∀ rm ∈ merge_outer a b, ∀ rb ∈ b, rm.ts = rb.ts →
      ∀ c v, rb.cells.lookup c = some v → rm.cells.lookup c = some v) ∧
    (∀ rm ∈ merge_outer a b,
      (rm.ts ∉ b.map Row.ts → ∀ c ∈ table_columns b, rm.cells.lookup c = none) ∧
      (rm.ts ∉ a.map Row.ts → ∀ c ∈ table_columns a, rm.cells.lookup c = none)) := by
  refine ⟨?_, fun ts => merge_outer_ts_mem a b hb ts, merge_outer_keys_nodup ha hb,
    ?_, ?_, ?_⟩
  · rw [hA, hB]
    simp [load_and_merge_excel, load_loop, load_loop_count_two]
  · -- no data loss from the left sheet
    intro rm hm ra hra hts c v hcv
    rcases merge_outer_row_cases hm with ⟨ra', hra', hj⟩ | ⟨_, hnone⟩
    · rcases merge_join_row_cases hj with ⟨_, hrm⟩ | ⟨rb, _, _, hrm⟩
      · rw [hrm] at hts ⊢
        have heq : ra' = ra := List.inj_on_of_nodup_map ha hra' hra hts
        rw [heq]
        exact hcv
      · rw [hrm] at hts ⊢
        have hts' : ra'.ts = ra.ts := hts
        have heq : ra' = ra := List.inj_on_of_nodup_map ha hra' hra hts'
        rw [heq]
        exact lookup_append_some hcv
    · exact absurd hts.symm (hnone ra hra)
  · -- no data loss from the right sheet
    intro rm hm rb hrb hts c v hcv
    rcases merge_outer_row_cases hm with ⟨ra', hra', hj⟩ | ⟨hmb, _⟩
    · rcases merge_join_row_cases hj with ⟨hn, hrm⟩ | ⟨rb', hrb', hrb'_ts, hrm⟩
      · rw [hrm] at hts
        exact absurd hts.symm (hn rb hrb)
      · rw [hrm] at hts ⊢
        have hts0 : ra'.ts = rb.ts := hts
        have hts' : rb'.ts = rb.ts := by rw [hrb'_ts]; exact hts0
        have heq : rb' = rb := List.inj_on_of_nodup_map hb hrb' hrb hts'
        rw [heq]
        have hnotin : ra'.cells.lookup c = none := by
          apply lookup_none_of_not_mem_keys
          intro hkey
          exact hdisj c (mem_table_columns_of_key hra' hkey)
            (mem_table_columns_of_key hrb (mem_keys_of_lookup_some hcv))
        exact (lookup_append_none hnotin).trans hcv
    · have heq : rm = rb := List.inj_on_of_nodup_map hb hmb hrb hts
      rw [heq]
      exact hcv
  · -- nulls for the sheet lacking the timestamp
    intro rm hm
    constructor
    · intro hnb c hcb
      rcases merge_outer_row_cases hm with ⟨ra', hra', hj⟩ | ⟨hmb, _⟩
      · rcases merge_join_row_cases hj with ⟨_, hrm⟩ | ⟨rb', hrb', hrb'_ts, hrm⟩
        · subst hrm
          apply lookup_none_of_not_mem_keys
          intro hkey
          exact hdisj c (mem_table_columns_of_key hra' hkey) hcb
        · exfalso
          apply hnb
          have : rm.ts = rb'.ts := by rw [hrm, hrb'_ts]
          rw [this]
          exact List.mem_map_of_mem Row.ts hrb'
      · exact absurd (List.mem_map_of_mem Row.ts hmb) hnb
    · intro hna c hca
      rcases merge_outer_row_cases hm with ⟨ra', hra', hj⟩ | ⟨hmb, _⟩
      · exfalso
        apply hna
        rcases merge_join_row_cases hj with ⟨_, hrm⟩ | ⟨rb', _, _, hrm⟩
        · rw [hrm]
          exact List.mem_map_of_mem Row.ts hra'
        · have : rm.ts = ra'.ts := by rw [hrm]
          rw [this]
          exact List.mem_map_of_mem Row.ts hra'
      · apply lookup_none_of_not_mem_keys
        intro hkey
        exact hdisj c hca (mem_table_columns_of_key hmb hkey)

/-- A concrete sheet for device A with columns `t`, `p` and timestamps 1, 2. -/
def sheet_w0 : Sheet :=
  ⟨"Input A_1", ["t", "p"],
   [(Val.num 1, [("t", Val.num 5), ("p", Val.num 6)]),
    (Val.num 2, [("t", Val.num 7)])]⟩

/-- A concrete sheet for device B with column `t` and timestamps 2, 3. -/
def sheet_w1 : Sheet :=
  ⟨"Input B_1", ["t"],
   [(Val.num 2, [("t", Val.num 8)]), (Val.num 3, [("t", Val.num 9)])]⟩

/-- C8 (witness): the invariant instantiated on two concrete overlapping
sheets with disjoint prefixed column sets. -/
theorem merged_table_outer_join_invariant_witness :
    (load_and_merge_excel parse_num [sheet_w0, sheet_w1]).merged
      = some (merge_outer (transform_sheet parse_num sheet_w0)
          (transform_sheet parse_num sheet_w1)) ∧
    (some 2 ∈ (merge_outer (transform_sheet parse_num sheet_w0)
        (transform_sheet parse_num sheet_w1)).map Row.ts ↔
      (some 2 ∈ (transform_sheet parse_num sheet_w0).map Row.ts ∨
       some 2 ∈ (transform_sheet parse_num sheet_w1).map Row.ts)) :=
  have h := merged_table_outer_join_invariant parse_num sheet_w0 sheet_w1 []
    (transform_sheet parse_num sheet_w0) (transform_sheet parse_num sheet_w1)
    rfl rfl (by decide) (by decide) (by decide)
  ⟨h.1, h.2.1 (some 2)⟩

/-- C9 (witness): case-insensitivity applied at two concrete spellings. -/
theorem normalize_case_insensitive_witness :
    normalize_col_name "TeMp" = normalize_col_name "tEmP" :=
  normalize_idempotent_case_insensitive.2.1 "TeMp" "tEmP" (by decide)
